import Mathlib

/-!
Shallow embedding of `serde_derive/src/de_in.rs` (the `DeserializeIn` derive
macro) and of the decode-time behaviour of the code it emits.

Two layers are modelled:

* the generation layer (`find_allocator_param`, `deserialize_struct`,
  `expand_derive_deserialize_in`): the analysis of a type descriptor and the
  dispatch between the emitted protocol implementation and the
  `compile_error!` failure sentinels;
* the decode layer: the behaviour of the emitted code artifact — the field
  identifier decoder (`__FieldVisitor::visit_str`), the per-field seed
  (`__Seed`), the map-visiting loop (`__Visitor::visit_map`) and the final
  constructor (`field_unwraps`) — driven by an abstract map input
  (`MapAccess`) given as a list of key/value events.
-/

namespace DeIn

/-! ## Field descriptors -/

/-- One named field of the container, as the generator sees it:
`ident` is the binding identifier (`f.original.ident` in the source) and
`rename` the optional rename attribute carried by `f.attrs`. -/
structure FieldDesc where
  ident : String
  rename : Option String
deriving DecidableEq, Repr

/-- Modelled from the spec: `f.attrs.name().deserialize_name()` comes from the
attribute machinery in `crate::internals::attr`, which is not part of the
source under scrutiny.  Per the spec, the wire name is "explicit rename
attribute value if present, else the binding identifier's own name". -/
def deserialize_name (f : FieldDesc) : String :=
  f.rename.getD f.ident

/-! ## The emitted field identifier decoder

The emitted `__Field` enum has one variant `__Field0 … __Field(n-1)` per
field plus `__ignore`; `__FieldVisitor::visit_str` matches the incoming key
string against the per-field `name_str` literals in declaration order and
returns `Ok(__Field::__ignore)` for anything unmatched. -/

/-- The emitted `__Field` identifier enum: variant `mk i` is `__Field{i}`,
plus the `__ignore` sentinel. -/
inductive __Field where
  | mk (i : Nat)
  | __ignore
deriving DecidableEq, Repr

/-- The sequence of match arms of the emitted `visit_str`, one arm
`#name_str => Ok(__Field{i})` per field in declaration order (first match
wins); the trailing wildcard arm yields `__ignore`.  `i` is the position of
the first arm in this tail. -/
def field_match_arms : List FieldDesc → Nat → String → __Field
  | [], _, _ => .__ignore
  | f :: fs, i, v =>
    if deserialize_name f == v then .mk i else field_match_arms fs (i + 1) v

/-- The match performed by the emitted `visit_str` over the full arm list. -/
def field_match (fields : List FieldDesc) (v : String) : __Field :=
  field_match_arms fields 0 v

/-- The emitted `__FieldVisitor::visit_str`: total on strings, always `Ok`. -/
def visit_str (ε : Type) (fields : List FieldDesc) (v : String) :
    Except ε __Field :=
  .ok (field_match fields v)

/-! ## The emitted seed and visitor -/

/-- The emitted `__Seed` struct (the `PhantomData<__T>` marker carries no
data and is dropped; the target type is tracked by the field position at the
call site). -/
structure __Seed (A : Type) where
  alloc : A
deriving DecidableEq, Repr

/-- The emitted `__Visitor` struct holding the allocator handle. -/
structure __Visitor (A : Type) where
  __alloc : A
deriving DecidableEq, Repr

/-- From `visit_map_arms`: the seed built for a field's value decode,
`__Seed { alloc: self.__alloc.clone(), marker: PhantomData }`.  The handle is
`Copy`, so `.clone()` is a value copy. -/
def seed_for_field {A : Type} (self : __Visitor A) : __Seed A :=
  ⟨self.__alloc⟩

/-- The emitted `__Seed::deserialize`: forwards to
`DeserializeIn::deserialize_in(deserializer, self.alloc)`.  `dec i v a`
stands for field `i`'s `deserialize_in` applied to raw input `v` with
allocator handle `a`. -/
def seed_deserialize {ρ ε α A : Type} (dec : Nat → ρ → A → Except ε α)
    (i : Nat) (s : __Seed A) (v : ρ) : Except ε α :=
  dec i v s.alloc

/-! ## The decode-time input and errors -/

/-- One event produced by the input's `MapAccess::next_key` call:
either a key string was decoded (followed by a raw value available to
`next_value`/`next_value_seed`), or the input raised an error while decoding
the key. -/
inductive Entry (ρ ε : Type) where
  | kv (key : String) (val : ρ)
  | keyErr (e : ε)
deriving DecidableEq, Repr

/-- The error domain surfaced by the emitted `visit_map`:
`Error::duplicate_field(..)`, `Error::missing_field(..)`, or an error the
input itself raised (propagated by `?` unchanged). -/
inductive DecodeError (ε : Type) where
  | duplicate_field (name : String)
  | missing_field (name : String)
  | input (e : ε)
deriving DecidableEq, Repr

/-! ## The emitted `visit_map` loop

The emitted code declares one `Option` variable per field
(`let mut __field{i} = None`), then loops on `next_key::<__Field>`:

* `Err(e)` from the key decode aborts via `?`;
* `__Field{i}`: if `__field{i}.is_some()` return
  `Err(duplicate_field(stringify!(ident_i)))`, else decode the value through
  `__Seed` and store it;
* `__ignore`: decode and discard one `IgnoredAny` value.

The family of per-field variables is modelled as a function
`slots : Nat → Option α`. -/

/-- The binding identifier passed to `duplicate_field` for field `i`
(`stringify!(#ident)` in `visit_map_arms`). -/
def ident_at (fields : List FieldDesc) (i : Nat) : String :=
  match fields.get? i with
  | some f => f.ident
  | none => ""

/-- The `while let Some(__key) = next_key()?` loop body of the emitted
`visit_map`.  `skip v` is the input's `next_value::<IgnoredAny>` on raw
value `v`. -/
def visit_map_loop {ρ ε α A : Type} (fields : List FieldDesc)
    (dec : Nat → ρ → A → Except ε α) (skip : ρ → Except ε Unit)
    (self : __Visitor A) :
    List (Entry ρ ε) → (Nat → Option α) →
    Except (DecodeError ε) (Nat → Option α)
  | [], slots => .ok slots
  | .keyErr e :: _, _ => .error (.input e)
  | .kv k v :: rest, slots =>
    match field_match fields k with
    | .mk i =>
      if (slots i).isSome then
        .error (.duplicate_field (ident_at fields i))
      else
        match seed_deserialize dec i (seed_for_field self) v with
        | .error e => .error (.input e)
        | .ok a =>
          visit_map_loop fields dec skip self rest
            (fun j => if j = i then some a else slots j)
    | .__ignore =>
      match skip v with
      | .error e => .error (.input e)
      | .ok _ => visit_map_loop fields dec skip self rest slots

/-- The struct-construction expression of the emitted `visit_map`
(`field_unwraps`): fields in declaration order, each
`#ident: __field{i}.ok_or_else(|| missing_field(#name_str))?` — the first
empty slot in declaration order aborts with `missing_field` of that field's
wire name. -/
def field_unwraps {ε α : Type} (slots : Nat → Option α) :
    List FieldDesc → Nat → Except (DecodeError ε) (List α)
  | [], _ => .ok []
  | f :: fs, i =>
    match slots i with
    | none => .error (.missing_field (deserialize_name f))
    | some a =>
      match field_unwraps slots fs (i + 1) with
      | .error e => .error e
      | .ok out => .ok (a :: out)

/-- The emitted `__Visitor::visit_map`: run the accumulation loop starting
from all-empty slots, then construct the record (a list of decoded field
values in declaration order). -/
def visit_map {ρ ε α A : Type} (fields : List FieldDesc)
    (dec : Nat → ρ → A → Except ε α) (skip : ρ → Except ε Unit)
    (self : __Visitor A) (entries : List (Entry ρ ε)) :
    Except (DecodeError ε) (List α) :=
  match visit_map_loop fields dec skip self entries (fun _ => none) with
  | .error e => .error e
  | .ok slots => field_unwraps slots fields 0

/-- The emitted `deserialize_in` body: `deserialize_struct` hands the input's
map to `__Visitor { __alloc: __alloc }`. -/
def deserialize_in_impl {ρ ε α A : Type} (fields : List FieldDesc)
    (dec : Nat → ρ → A → Except ε α) (skip : ρ → Except ε Unit)
    (alloc : A) (entries : List (Entry ρ ε)) :
    Except (DecodeError ε) (List α) :=
  visit_map fields dec skip ⟨alloc⟩ entries

/-- The emitted `__FIELDS` constant: the wire names in declaration order. -/
def __FIELDS (fields : List FieldDesc) : List String :=
  fields.map deserialize_name

/-! ## Generation layer: the type descriptor -/

/-- `internals::ast::Style`. -/
inductive Style where
  | struct
  | tuple
  | newtype
  | unit
deriving DecidableEq, Repr

/-- One bound in a type parameter's bound list: a trait bound carries its
path as the list of segment identifiers; other bounds (lifetimes, …) carry
nothing relevant. -/
inductive ParamBound where
  | trait (segments : List String)
  | other
deriving DecidableEq, Repr

/-- `syn::TypeParam`: identifier plus bound list. -/
structure TypeParam where
  ident : String
  bounds : List ParamBound
deriving DecidableEq, Repr

/-- `syn::GenericParam`. -/
inductive GenericParam where
  | type (tp : TypeParam)
  | lifetime
  | const
deriving DecidableEq, Repr

/-- The test in `find_allocator_param`'s inner loop:
`path.segments.last().map(|s| s.ident == "Allocator").unwrap_or(false)`. -/
def bound_is_allocator : ParamBound → Bool
  | .trait segments =>
    match segments.getLast? with
    | some s => s == "Allocator"
    | none => false
  | .other => false

/-- `find_allocator_param`: scan the generic parameters in declaration
order; return the first type parameter one of whose bounds is a trait path
whose last segment is `Allocator`. -/
def find_allocator_param : List GenericParam → Option String
  | [] => none
  | .type tp :: rest =>
    if tp.bounds.any bound_is_allocator then some tp.ident
    else find_allocator_param rest
  | .lifetime :: rest => find_allocator_param rest
  | .const :: rest => find_allocator_param rest

/-- `internals::ast::Data` restricted to what the generator inspects. -/
inductive Data where
  | struct (style : Style) (fields : List FieldDesc)
  | enum
deriving DecidableEq, Repr

/-- The derive input: container identifier, generic parameters, shape. -/
structure DeriveInput where
  ident : String
  generics : List GenericParam
  data : Data
deriving DecidableEq, Repr

/-- The `body` token stream produced inside `expand_derive_deserialize_in`:
either the full protocol implementation for a named struct, or a
`compile_error!(msg)` placeholder. -/
inductive Body where
  | protocolImpl (structName : String) (allocParam : String)
      (fields : List FieldDesc)
  | compileError (msg : String)
deriving DecidableEq, Repr

/-- The generated artifact: an impl block wrapping a body (the allocator
parameter was found), or a bare top-level `compile_error!`. -/
inductive Output where
  | implBlock (allocParam : String) (body : Body)
  | compileError (msg : String)
deriving DecidableEq, Repr

/-- `deserialize_struct_named`: requires `alloc_param`; emits the protocol
implementation. -/
def deserialize_struct_named (fields : List FieldDesc)
    (alloc_param : Option String) (struct_ident : String) : Body :=
  match alloc_param with
  | none => .compileError "alloc_param required"
  | some p => .protocolImpl struct_ident p fields

/-- `deserialize_struct`: only `Style::Struct` is supported. -/
def deserialize_struct (style : Style) (fields : List FieldDesc)
    (alloc_param : Option String) (struct_ident : String) : Body :=
  match style with
  | .struct => deserialize_struct_named fields alloc_param struct_ident
  | .tuple =>
    .compileError "Only named structs are supported for DeserializeIn"
  | .newtype =>
    .compileError "Only named structs are supported for DeserializeIn"
  | .unit =>
    .compileError "Only named structs are supported for DeserializeIn"

/-- `expand_derive_deserialize_in` (after the `Container::from_ast`
front end, which lives outside this source file): compute the body from the
container's shape, then wrap it in the impl block when an allocator
parameter exists, else emit the bare `compile_error!`. -/
def expand_derive_deserialize_in (input : DeriveInput) : Output :=
  let alloc_param := find_allocator_param input.generics
  let body :=
    match input.data with
    | .struct style fields =>
      deserialize_struct style fields alloc_param input.ident
    | .enum =>
      .compileError "DeserializeIn for enums is not yet implemented"
  match alloc_param with
  | some a => .implBlock a body
  | none =>
    .compileError "DeserializeIn requires a type parameter with `Allocator` bound"

/-- The boolean test of `find_allocator_param`'s outer loop step: a type
parameter one of whose bounds is a trait path ending in `Allocator`. -/
def param_has_allocator_bound : GenericParam → Bool
  | .type tp => tp.bounds.any bound_is_allocator
  | .lifetime => false
  | .const => false

/-- The identifier a generic parameter contributes when it is a type
parameter. -/
def type_param_ident : GenericParam → Option String
  | .type tp => some tp.ident
  | .lifetime => none
  | .const => none

/-- Container shapes the generator rejects: enums and non-named structs. -/
def is_unsupported_shape : Data → Bool
  | .enum => true
  | .struct .struct _ => false
  | .struct .tuple _ => true
  | .struct .newtype _ => true
  | .struct .unit _ => true

/-- The `compile_error!` message the generator uses for each unsupported
shape. -/
def unsupported_shape_msg : Data → String
  | .enum => "DeserializeIn for enums is not yet implemented"
  | .struct _ _ => "Only named structs are supported for DeserializeIn"

/-- An output is a failure sentinel when it contains a `compile_error!`
anywhere — it fails the host build instead of providing a decoder. -/
def is_failure_sentinel : Output → Bool
  | .implBlock _ (.compileError _) => true
  | .implBlock _ (.protocolImpl _ _ _) => false
  | .compileError _ => true

/-- The diagnostic message a failure sentinel carries, when it is one. -/
def sentinel_msg : Output → Option String
  | .implBlock _ (.compileError m) => some m
  | .implBlock _ (.protocolImpl _ _ _) => none
  | .compileError m => some m

/-! ## Spec-side predicates on decode inputs -/

/-- Whether an `Except` result is a success. -/
def is_ok {ε β : Type} : Except ε β → Bool
  | .ok _ => true
  | .error _ => false

/-- A well-formed input: every event is a decoded key/value pair, every
value belonging to a recognized field decodes successfully with the given
allocator, and every value under an unrecognized key skips successfully. -/
def entries_wf {ρ ε α A : Type} (fields : List FieldDesc)
    (dec : Nat → ρ → A → Except ε α) (skip : ρ → Except ε Unit) (alloc : A)
    (entries : List (Entry ρ ε)) : Bool :=
  entries.all fun e =>
    match e with
    | .keyErr _ => false
    | .kv k v =>
      match field_match fields k with
      | .mk i => is_ok (dec i v alloc)
      | .__ignore => is_ok (skip v)

/-- Whether an input event is a key/value pair whose key resolves to
field `i`. -/
def entry_resolves {ρ ε : Type} (fields : List FieldDesc) (i : Nat) :
    Entry ρ ε → Bool
  | .kv k _ => field_match fields k == .mk i
  | .keyErr _ => false

/-- The value field `i` receives from a well-formed input: the decode of
the first (and, under exactly-once inputs, only) event resolving to `i`. -/
def entry_value {ρ ε α A : Type} (fields : List FieldDesc)
    (dec : Nat → ρ → A → Except ε α) (alloc : A)
    (entries : List (Entry ρ ε)) (i : Nat) : Option α :=
  match entries.find? (entry_resolves fields i) with
  | some (.kv _ v) =>
    match dec i v alloc with
    | .ok a => some a
    | .error _ => none
  | some (.keyErr _) => none
  | none => none

/-! ## Concrete material used by witnesses and counterexamples -/

/-- The two-field record `{x: int, y: int}` of the spec's examples. -/
def ex_fields : List FieldDesc := [⟨"x", none⟩, ⟨"y", none⟩]

/-- A one-field record whose binding identifier `x_int` is renamed to the
wire name `x`. -/
def ex_fields_renamed : List FieldDesc := [⟨"x_int", some "x"⟩]

/-- A trivial integer field decoder (ignores the allocator handle). -/
def ex_dec : Nat → Int → Unit → Except String Int := fun _ v _ => .ok v

/-- An always-failing field decoder. -/
def ex_dec_err : Nat → Int → Unit → Except String Int :=
  fun _ _ _ => .error "value failure"

/-- An integer field decoder over a `Nat` allocator handle. -/
def ex_dec_nat : Nat → Int → Nat → Except String Int := fun _ v _ => .ok v

/-- A trivial `IgnoredAny` consumer. -/
def ex_skip : Int → Except String Unit := fun _ => .ok ()

/-- An always-failing `IgnoredAny` consumer. -/
def ex_skip_err : Int → Except String Unit := fun _ => .error "skip failure"

/-- Generic parameters with one allocator-bound type parameter `A`. -/
def ex_generics : List GenericParam :=
  [.lifetime, .type ⟨"T", [.trait ["Clone"]]⟩,
    .type ⟨"A", [.trait ["core", "alloc", "Allocator"], .other]⟩]

/-- Generic parameters with no allocator-bound type parameter. -/
def ex_generics_no_alloc : List GenericParam :=
  [.lifetime, .type ⟨"T", [.trait ["Clone"]]⟩]

/-- The visitor state reached after field 0 was filled with value 1. -/
def ex_slots_x_filled : Nat → Option Int :=
  fun j => if j = 0 then some 1 else none

/-! ## Lemmas about the identifier decoder -/

theorem field_match_arms_ignore_iff (fs : List FieldDesc) (i : Nat)
    (v : String) :
    field_match_arms fs i v = .__ignore ↔ ∀ f ∈ fs, deserialize_name f ≠ v := by
  induction fs generalizing i with
  | nil => simp [field_match_arms]
  | cons f fs ih =>
    simp only [field_match_arms]
    by_cases h : (deserialize_name f == v) = true
    · rw [if_pos h]
      simp only [beq_iff_eq] at h
      constructor
      · intro hcon
        exact absurd hcon (by simp)
      · intro hall
        exact absurd h (hall f (by simp))
    · rw [if_neg h]
      rw [ih (i + 1)]
      simp only [beq_iff_eq] at h
      constructor
      · intro hall g hg
        rcases List.mem_cons.mp hg with rfl | hg
        · exact h
        · exact hall g hg
      · intro hall g hg
        exact hall g (List.mem_cons_of_mem f hg)

theorem field_match_ignore_iff (fields : List FieldDesc) (v : String) :
    field_match fields v = .__ignore ↔
      ∀ f ∈ fields, deserialize_name f ≠ v :=
  field_match_arms_ignore_iff fields 0 v

theorem field_match_arms_mk_lt (fs : List FieldDesc) (i j : Nat) (v : String)
    (h : field_match_arms fs i v = .mk j) : i ≤ j ∧ j < i + fs.length := by
  induction fs generalizing i with
  | nil => simp [field_match_arms] at h
  | cons f fs ih =>
    simp only [field_match_arms] at h
    by_cases hf : (deserialize_name f == v) = true
    · rw [if_pos hf] at h
      cases h
      simp
    · rw [if_neg hf] at h
      rcases ih (i + 1) h with ⟨h1, h2⟩
      constructor
      · omega
      · simp only [List.length_cons]
        omega

theorem field_match_mk_lt (fields : List FieldDesc) (j : Nat) (v : String)
    (h : field_match fields v = .mk j) : j < fields.length := by
  have := field_match_arms_mk_lt fields 0 j v h
  omega

/-! ## Lemmas about the accumulation loop -/

theorem loop_nil {ρ ε α A : Type} (fields : List FieldDesc)
    (dec : Nat → ρ → A → Except ε α) (skip : ρ → Except ε Unit)
    (self : __Visitor A) (slots : Nat → Option α) :
    visit_map_loop fields dec skip self [] slots = .ok slots := rfl

theorem loop_key_err {ρ ε α A : Type} (fields : List FieldDesc)
    (dec : Nat → ρ → A → Except ε α) (skip : ρ → Except ε Unit)
    (self : __Visitor A) (e : ε) (rest : List (Entry ρ ε))
    (slots : Nat → Option α) :
    visit_map_loop fields dec skip self (.keyErr e :: rest) slots
      = .error (.input e) := rfl

theorem loop_duplicate {ρ ε α A : Type} (fields : List FieldDesc)
    (dec : Nat → ρ → A → Except ε α) (skip : ρ → Except ε Unit)
    (self : __Visitor A) (k : String) (v : ρ) (rest : List (Entry ρ ε))
    (slots : Nat → Option α) (i : Nat)
    (hk : field_match fields k = .mk i) (hdup : (slots i).isSome = true) :
    visit_map_loop fields dec skip self (.kv k v :: rest) slots
      = .error (.duplicate_field (ident_at fields i)) := by
  simp [visit_map_loop, hk, hdup]

theorem loop_dec_error {ρ ε α A : Type} (fields : List FieldDesc)
    (dec : Nat → ρ → A → Except ε α) (skip : ρ → Except ε Unit)
    (self : __Visitor A) (k : String) (v : ρ) (rest : List (Entry ρ ε))
    (slots : Nat → Option α) (i : Nat) (e : ε)
    (hk : field_match fields k = .mk i) (hdup : (slots i).isSome = false)
    (hd : dec i v self.__alloc = .error e) :
    visit_map_loop fields dec skip self (.kv k v :: rest) slots
      = .error (.input e) := by
  simp [visit_map_loop, hk, hdup, seed_deserialize, seed_for_field, hd]

theorem loop_dec_ok {ρ ε α A : Type} (fields : List FieldDesc)
    (dec : Nat → ρ → A → Except ε α) (skip : ρ → Except ε Unit)
    (self : __Visitor A) (k : String) (v : ρ) (rest : List (Entry ρ ε))
    (slots : Nat → Option α) (i : Nat) (a : α)
    (hk : field_match fields k = .mk i) (hdup : (slots i).isSome = false)
    (hd : dec i v self.__alloc = .ok a) :
    visit_map_loop fields dec skip self (.kv k v :: rest) slots
      = visit_map_loop fields dec skip self rest
          (fun j => if j = i then some a else slots j) := by
  simp [visit_map_loop, hk, hdup, seed_deserialize, seed_for_field, hd]

theorem loop_skip_error {ρ ε α A : Type} (fields : List FieldDesc)
    (dec : Nat → ρ → A → Except ε α) (skip : ρ → Except ε Unit)
    (self : __Visitor A) (k : String) (v : ρ) (rest : List (Entry ρ ε))
    (slots : Nat → Option α) (e : ε)
    (hk : field_match fields k = .__ignore) (hs : skip v = .error e) :
    visit_map_loop fields dec skip self (.kv k v :: rest) slots
      = .error (.input e) := by
  simp [visit_map_loop, hk, hs]

theorem loop_skip_ok {ρ ε α A : Type} (fields : List FieldDesc)
    (dec : Nat → ρ → A → Except ε α) (skip : ρ → Except ε Unit)
    (self : __Visitor A) (k : String) (v : ρ) (rest : List (Entry ρ ε))
    (slots : Nat → Option α)
    (hk : field_match fields k = .__ignore) (hs : skip v = .ok ()) :
    visit_map_loop fields dec skip self (.kv k v :: rest) slots
      = visit_map_loop fields dec skip self rest slots := by
  simp [visit_map_loop, hk, hs]

theorem visit_map_of_loop_error {ρ ε α A : Type} (fields : List FieldDesc)
    (dec : Nat → ρ → A → Except ε α) (skip : ρ → Except ε Unit)
    (self : __Visitor A) (entries : List (Entry ρ ε))
    (err : DecodeError ε)
    (h : visit_map_loop fields dec skip self entries (fun _ => none)
      = .error err) :
    visit_map fields dec skip self entries = .error err := by
  simp [visit_map, h]

theorem visit_map_of_loop_ok {ρ ε α A : Type} (fields : List FieldDesc)
    (dec : Nat → ρ → A → Except ε α) (skip : ρ → Except ε Unit)
    (self : __Visitor A) (entries : List (Entry ρ ε))
    (slots : Nat → Option α)
    (h : visit_map_loop fields dec skip self entries (fun _ => none)
      = .ok slots) :
    visit_map fields dec skip self entries = field_unwraps slots fields 0 := by
  simp [visit_map, h]

/-! ## Lemmas about the final constructor -/

theorem field_unwraps_first_missing {ε α : Type} (fs : List FieldDesc)
    (slots : Nat → Option α) (i j : Nat) (hlt : j < fs.length)
    (hj : slots (i + j) = none)
    (hfirst : ∀ j' < j, (slots (i + j')).isSome = true) :
    field_unwraps (ε := ε) slots fs i
      = .error (.missing_field (deserialize_name (fs.get ⟨j, hlt⟩))) := by
  induction fs generalizing i j with
  | nil => simp at hlt
  | cons f fs ih =>
    cases j with
    | zero =>
      simp only [Nat.add_zero] at hj
      simp [field_unwraps, hj]
    | succ j' =>
      have h0 : (slots (i + 0)).isSome = true := hfirst 0 (Nat.succ_pos j')
      simp only [Nat.add_zero] at h0
      rcases Option.isSome_iff_exists.mp h0 with ⟨a, ha⟩
      have hlt' : j' < fs.length := by
        simp only [List.length_cons] at hlt
        omega
      have hj' : slots (i + 1 + j') = none := by
        have : i + 1 + j' = i + (j' + 1) := by omega
        rw [this]
        exact hj
      have hfirst' : ∀ m < j', (slots (i + 1 + m)).isSome = true := by
        intro m hm
        have : i + 1 + m = i + (m + 1) := by omega
        rw [this]
        exact hfirst (m + 1) (by omega)
      have := ih (i + 1) j' hlt' hj' hfirst'
      simp [field_unwraps, ha, this]

theorem field_unwraps_all_some {ε α : Type} (fs : List FieldDesc)
    (slots : Nat → Option α) (i : Nat)
    (h : ∀ j < fs.length, (slots (i + j)).isSome = true) :
    ∃ out, field_unwraps (ε := ε) slots fs i = .ok out := by
  induction fs generalizing i with
  | nil => exact ⟨[], rfl⟩
  | cons f fs ih =>
    have h0 : (slots (i + 0)).isSome = true := h 0 (by simp)
    simp only [Nat.add_zero] at h0
    rcases Option.isSome_iff_exists.mp h0 with ⟨a, ha⟩
    have h' : ∀ j < fs.length, (slots (i + 1 + j)).isSome = true := by
      intro j hj
      have : i + 1 + j = i + (j + 1) := by omega
      rw [this]
      exact h (j + 1) (by simp only [List.length_cons]; omega)
    rcases ih (i + 1) h' with ⟨out, hout⟩
    exact ⟨a :: out, by simp [field_unwraps, ha, hout]⟩

/-! ## Insertion of an ignored entry -/

theorem loop_insert_ignored {ρ ε α A : Type} (fields : List FieldDesc)
    (dec : Nat → ρ → A → Except ε α) (skip : ρ → Except ε Unit)
    (self : __Visitor A) (k : String) (v : ρ)
    (hig : field_match fields k = .__ignore) (hv : skip v = .ok ()) :
    ∀ (pre post : List (Entry ρ ε)) (slots : Nat → Option α),
      visit_map_loop fields dec skip self (pre ++ .kv k v :: post) slots
        = visit_map_loop fields dec skip self (pre ++ post) slots := by
  intro pre
  induction pre with
  | nil =>
    intro post slots
    rw [List.nil_append, List.nil_append]
    exact loop_skip_ok fields dec skip self k v post slots hig hv
  | cons e pre ih =>
    intro post slots
    rw [List.cons_append, List.cons_append]
    cases e with
    | keyErr e => rfl
    | kv k' v' =>
      cases hm : field_match fields k' with
      | mk i =>
        cases hdup : (slots i).isSome with
        | true =>
          rw [loop_duplicate fields dec skip self k' v' _ slots i hm hdup,
            loop_duplicate fields dec skip self k' v' _ slots i hm hdup]
        | false =>
          cases hd : dec i v' self.__alloc with
          | error e =>
            rw [loop_dec_error fields dec skip self k' v' _ slots i e hm hdup hd,
              loop_dec_error fields dec skip self k' v' _ slots i e hm hdup hd]
          | ok a =>
            rw [loop_dec_ok fields dec skip self k' v' _ slots i a hm hdup hd,
              loop_dec_ok fields dec skip self k' v' _ slots i a hm hdup hd]
            exact ih post _
      | __ignore =>
        cases hs : skip v' with
        | error e =>
          rw [loop_skip_error fields dec skip self k' v' _ slots e hm hs,
            loop_skip_error fields dec skip self k' v' _ slots e hm hs]
        | ok u =>
          cases u
          rw [loop_skip_ok fields dec skip self k' v' _ slots hm hs,
            loop_skip_ok fields dec skip self k' v' _ slots hm hs]
          exact ih post slots

/-! ## The loop only ever hands the container's allocator to field decodes -/

theorem loop_alloc_const {ρ ε α A : Type} (fields : List FieldDesc)
    (dec : Nat → ρ → A → Except ε α) (skip : ρ → Except ε Unit) (alloc : A) :
    ∀ (entries : List (Entry ρ ε)) (slots : Nat → Option α),
      visit_map_loop fields dec skip ⟨alloc⟩ entries slots
        = visit_map_loop fields (fun i v _ => dec i v alloc) skip ⟨alloc⟩
            entries slots := by
  intro entries
  induction entries with
  | nil => intro slots; rfl
  | cons e rest ih =>
    intro slots
    cases e with
    | keyErr e => rfl
    | kv k v =>
      cases hm : field_match fields k with
      | mk i =>
        cases hdup : (slots i).isSome with
        | true =>
          rw [loop_duplicate fields dec skip ⟨alloc⟩ k v rest slots i hm hdup,
            loop_duplicate fields (fun i v _ => dec i v alloc) skip ⟨alloc⟩
              k v rest slots i hm hdup]
        | false =>
          cases hd : dec i v alloc with
          | error e =>
            rw [loop_dec_error fields dec skip ⟨alloc⟩ k v rest slots i e hm
                hdup hd,
              loop_dec_error fields (fun i v _ => dec i v alloc) skip ⟨alloc⟩
                k v rest slots i e hm hdup hd]
          | ok a =>
            rw [loop_dec_ok fields dec skip ⟨alloc⟩ k v rest slots i a hm
                hdup hd,
              loop_dec_ok fields (fun i v _ => dec i v alloc) skip ⟨alloc⟩
                k v rest slots i a hm hdup hd]
            exact ih _
      | __ignore =>
        cases hs : skip v with
        | error e =>
          rw [loop_skip_error fields dec skip ⟨alloc⟩ k v rest slots e hm hs,
            loop_skip_error fields (fun i v _ => dec i v alloc) skip ⟨alloc⟩
              k v rest slots e hm hs]
        | ok u =>
          cases u
          rw [loop_skip_ok fields dec skip ⟨alloc⟩ k v rest slots hm hs,
            loop_skip_ok fields (fun i v _ => dec i v alloc) skip ⟨alloc⟩
              k v rest slots hm hs]
          exact ih slots

/-! ## The loop over a container with no fields -/

theorem loop_no_fields {ρ ε α A : Type}
    (dec : Nat → ρ → A → Except ε α) (skip : ρ → Except ε Unit)
    (self : __Visitor A) :
    ∀ (entries : List (Entry ρ ε)) (slots : Nat → Option α),
      (∃ e, visit_map_loop [] dec skip self entries slots
        = .error (.input e))
      ∨ visit_map_loop [] dec skip self entries slots = .ok slots := by
  intro entries
  induction entries with
  | nil => intro slots; exact Or.inr rfl
  | cons e rest ih =>
    intro slots
    cases e with
    | keyErr e => exact Or.inl ⟨e, rfl⟩
    | kv k v =>
      have hig : field_match [] k = .__ignore := rfl
      cases hs : skip v with
      | error e =>
        exact Or.inl ⟨e, loop_skip_error [] dec skip self k v rest slots e
          hig hs⟩
      | ok u =>
        cases u
        rw [loop_skip_ok [] dec skip self k v rest slots hig hs]
        exact ih slots

theorem loop_no_fields_wf {ρ ε α A : Type}
    (dec : Nat → ρ → A → Except ε α) (skip : ρ → Except ε Unit)
    (self : __Visitor A) :
    ∀ (entries : List (Entry ρ ε)),
      entries_wf [] dec skip self.__alloc entries = true →
      ∀ slots : Nat → Option α,
        visit_map_loop [] dec skip self entries slots = .ok slots := by
  intro entries
  induction entries with
  | nil => intro _ slots; rfl
  | cons e rest ih =>
    intro hwf slots
    rw [entries_wf, List.all_cons, Bool.and_eq_true] at hwf
    rcases hwf with ⟨he, hrest⟩
    cases e with
    | keyErr e => simp at he
    | kv k v =>
      have hig : field_match [] k = .__ignore := rfl
      simp only [hig] at he
      cases hs : skip v with
      | error e => rw [hs] at he; simp [is_ok] at he
      | ok u =>
        cases u
        rw [loop_skip_ok [] dec skip self k v rest slots hig hs]
        exact ih hrest slots

/-! ## Characterization of `find_allocator_param` -/

theorem find_allocator_param_eq_find? (ps : List GenericParam) :
    find_allocator_param ps
      = (List.find? param_has_allocator_bound ps).bind type_param_ident := by
  induction ps with
  | nil => rfl
  | cons p rest ih =>
    cases p with
    | type tp =>
      cases h : tp.bounds.any bound_is_allocator with
      | true =>
        simp [find_allocator_param, List.find?_cons, param_has_allocator_bound,
          h, type_param_ident]
      | false =>
        simp [find_allocator_param, List.find?_cons, param_has_allocator_bound,
          h, ih]
    | lifetime =>
      simp [find_allocator_param, List.find?_cons, param_has_allocator_bound,
        ih]
    | const =>
      simp [find_allocator_param, List.find?_cons, param_has_allocator_bound,
        ih]

theorem find_allocator_param_none_iff (ps : List GenericParam) :
    find_allocator_param ps = none ↔
      ∀ p ∈ ps, param_has_allocator_bound p = false := by
  induction ps with
  | nil => simp [find_allocator_param]
  | cons p rest ih =>
    cases p with
    | type tp =>
      cases h : tp.bounds.any bound_is_allocator with
      | true =>
        simp only [find_allocator_param, h, if_true]
        constructor
        · intro hcon; cases hcon
        · intro hall
          have := hall (.type tp) (by simp)
          rw [param_has_allocator_bound] at this
          rw [h] at this
          cases this
      | false =>
        simp only [find_allocator_param, h]
        rw [if_neg (by decide)]
        rw [ih]
        constructor
        · intro hall q hq
          rcases List.mem_cons.mp hq with rfl | hq
          · rw [param_has_allocator_bound]; exact h
          · exact hall q hq
        · intro hall q hq
          exact hall q (List.mem_cons_of_mem _ hq)
    | lifetime =>
      simp only [find_allocator_param]
      rw [ih]
      constructor
      · intro hall q hq
        rcases List.mem_cons.mp hq with rfl | hq
        · rfl
        · exact hall q hq
      · intro hall q hq
        exact hall q (List.mem_cons_of_mem _ hq)
    | const =>
      simp only [find_allocator_param]
      rw [ih]
      constructor
      · intro hall q hq
        rcases List.mem_cons.mp hq with rfl | hq
        · rfl
        · exact hall q hq
      · intro hall q hq
        exact hall q (List.mem_cons_of_mem _ hq)

/-! ## Characterization of the loop on well-formed inputs -/

theorem find?_eq_head?_filter {β : Type} (p : β → Bool) (l : List β) :
    l.find? p = (l.filter p).head? := by
  induction l with
  | nil => rfl
  | cons a l ih =>
    rw [List.find?_cons, List.filter_cons]
    cases h : p a with
    | true =>
      rw [if_pos rfl]
      rfl
    | false =>
      rw [if_neg (by decide)]
      exact ih

theorem entry_resolves_false_of_ge {ρ ε : Type} (fields : List FieldDesc)
    (j : Nat) (hj : fields.length ≤ j) (e : Entry ρ ε) :
    entry_resolves fields j e = false := by
  cases e with
  | keyErr e => rfl
  | kv k v =>
    rw [entry_resolves]
    cases hm : field_match fields k with
    | mk i =>
      have hlt := field_match_mk_lt fields i k hm
      rw [beq_eq_false_iff_ne]
      intro hcon
      cases hcon
      omega
    | __ignore =>
      rw [beq_eq_false_iff_ne]
      intro hcon
      cases hcon

theorem entry_value_cons_false {ρ ε α A : Type} (fields : List FieldDesc)
    (dec : Nat → ρ → A → Except ε α) (alloc : A) (e : Entry ρ ε)
    (rest : List (Entry ρ ε)) (j : Nat)
    (h : entry_resolves fields j e = false) :
    entry_value fields dec alloc (e :: rest) j
      = entry_value fields dec alloc rest j := by
  simp [entry_value, List.find?_cons, h]

theorem entry_value_cons_true {ρ ε α A : Type} (fields : List FieldDesc)
    (dec : Nat → ρ → A → Except ε α) (alloc : A) (k : String) (v : ρ)
    (rest : List (Entry ρ ε)) (j : Nat)
    (h : entry_resolves fields j (.kv k v : Entry ρ ε) = true) :
    entry_value fields dec alloc (.kv k v :: rest) j
      = match dec j v alloc with
        | .ok a => some a
        | .error _ => none := by
  simp [entry_value, List.find?_cons, h]

theorem loop_char {ρ ε α A : Type} (fields : List FieldDesc)
    (dec : Nat → ρ → A → Except ε α) (skip : ρ → Except ε Unit) (alloc : A) :
    ∀ (entries : List (Entry ρ ε)) (slots : Nat → Option α),
      entries_wf fields dec skip alloc entries = true →
      (∀ i, i < fields.length →
        entries.countP (entry_resolves fields i)
          + (if (slots i).isSome then 1 else 0) = 1) →
      visit_map_loop fields dec skip ⟨alloc⟩ entries slots
        = .ok (fun j =>
            (slots j).or (entry_value fields dec alloc entries j)) := by
  intro entries
  induction entries with
  | nil =>
    intro slots _ _
    rw [loop_nil]
    congr 1
    funext j
    simp [entry_value, Option.or_none]
  | cons e rest ih =>
    intro slots hwf honce
    rw [entries_wf, List.all_cons, Bool.and_eq_true] at hwf
    rcases hwf with ⟨he, hrest⟩
    cases e with
    | keyErr e => simp at he
    | kv k v =>
      cases hm : field_match fields k with
      | mk i =>
        simp only [hm] at he
        have hlti : i < fields.length := field_match_mk_lt fields i k hm
        have hres : entry_resolves fields i (.kv k v : Entry ρ ε) = true := by
          rw [entry_resolves, hm]
          exact beq_self_eq_true _
        have h0 := honce i hlti
        rw [List.countP_cons, hres, if_pos rfl] at h0
        have hslot : (slots i).isSome = false := by
          cases hs : (slots i).isSome with
          | false => rfl
          | true =>
            rw [hs, if_pos rfl] at h0
            exfalso
            omega
        have hcnt0 : rest.countP (entry_resolves fields i) = 0 := by
          rw [hslot, if_neg (by decide)] at h0
          omega
        have hdec : ∃ a, dec i v alloc = .ok a := by
          cases hd : dec i v alloc with
          | ok a => exact ⟨a, rfl⟩
          | error e =>
            rw [hd] at he
            simp [is_ok] at he
        rcases hdec with ⟨a, ha⟩
        rw [loop_dec_ok fields dec skip ⟨alloc⟩ k v rest slots i a hm hslot ha]
        have honce' : ∀ i', i' < fields.length →
            rest.countP (entry_resolves fields i')
              + (if ((fun j => if j = i then some a else slots j) i').isSome
                  then 1 else 0) = 1 := by
          intro i' hi'
          by_cases hii : i' = i
          · subst hii
            simp only [if_pos rfl, Option.isSome_some, if_true]
            rw [hcnt0]
          · have h0' := honce i' hi'
            have hresf : entry_resolves fields i' (.kv k v : Entry ρ ε) = false := by
              rw [entry_resolves, hm]
              rw [beq_eq_false_iff_ne]
              intro hcon
              cases hcon
              exact hii rfl
            rw [List.countP_cons, hresf, if_neg (by decide),
              Nat.add_zero] at h0'
            simp only [if_neg hii]
            exact h0'
        rw [ih _ hrest honce']
        congr 1
        funext j
        by_cases hj : j = i
        · subst hj
          have hnone : slots j = none := by
            cases hsl : slots j with
            | none => rfl
            | some b =>
              rw [hsl] at hslot
              simp at hslot
          simp only [if_pos rfl, hnone, Option.none_or]
          rw [entry_value_cons_true fields dec alloc k v rest j hres, ha]
          rfl
        · simp only [if_neg hj]
          rw [entry_value_cons_false fields dec alloc _ rest j]
          rw [entry_resolves, hm]
          rw [beq_eq_false_iff_ne]
          intro hcon
          cases hcon
          exact hj rfl
      | __ignore =>
        simp only [hm] at he
        have hs : skip v = .ok () := by
          cases hsv : skip v with
          | ok u => cases u; rfl
          | error e =>
            rw [hsv] at he
            simp [is_ok] at he
        rw [loop_skip_ok fields dec skip ⟨alloc⟩ k v rest slots hm hs]
        have hresf : ∀ i', entry_resolves fields i' (.kv k v : Entry ρ ε) = false := by
          intro i'
          rw [entry_resolves, hm]
          rw [beq_eq_false_iff_ne]
          intro hcon
          cases hcon
        have honce' : ∀ i', i' < fields.length →
            rest.countP (entry_resolves fields i')
              + (if (slots i').isSome then 1 else 0) = 1 := by
          intro i' hi'
          have h0' := honce i' hi'
          rw [List.countP_cons, hresf i', if_neg (by decide),
            Nat.add_zero] at h0'
          exact h0'
        rw [ih slots hrest honce']
        congr 1
        funext j
        rw [entry_value_cons_false fields dec alloc _ rest j (hresf j)]

theorem entry_value_isSome {ρ ε α A : Type} (fields : List FieldDesc)
    (dec : Nat → ρ → A → Except ε α) (skip : ρ → Except ε Unit) (alloc : A) :
    ∀ (entries : List (Entry ρ ε)) (j : Nat),
      entries_wf fields dec skip alloc entries = true →
      entries.countP (entry_resolves fields j) = 1 →
      (entry_value fields dec alloc entries j).isSome = true := by
  intro entries
  induction entries with
  | nil =>
    intro j _ hc
    simp [List.countP_nil] at hc
  | cons e rest ih =>
    intro j hwf hc
    rw [entries_wf, List.all_cons, Bool.and_eq_true] at hwf
    rcases hwf with ⟨he, hrest⟩
    cases hres : entry_resolves fields j e with
    | true =>
      cases e with
      | keyErr e => simp [entry_resolves] at hres
      | kv k v =>
        rw [entry_value_cons_true fields dec alloc k v rest j hres]
        have hm : field_match fields k = .mk j := by
          rw [entry_resolves] at hres
          exact beq_iff_eq.mp hres
        simp only [hm] at he
        cases hd : dec j v alloc with
        | ok a => simp [hd]
        | error e =>
          rw [hd] at he
          simp [is_ok] at he
    | false =>
      rw [entry_value_cons_false fields dec alloc e rest j hres]
      apply ih j hrest
      rw [List.countP_cons, hres, if_neg (by decide), Nat.add_zero] at hc
      exact hc

theorem entry_value_ge {ρ ε α A : Type} (fields : List FieldDesc)
    (dec : Nat → ρ → A → Except ε α) (alloc : A) :
    ∀ (entries : List (Entry ρ ε)) (j : Nat), fields.length ≤ j →
      entry_value fields dec alloc entries j = none := by
  intro entries
  induction entries with
  | nil => intro j _; rfl
  | cons e rest ih =>
    intro j hj
    rw [entry_value_cons_false fields dec alloc e rest j
      (entry_resolves_false_of_ge fields j hj e)]
    exact ih j hj

theorem entry_value_perm {ρ ε α A : Type} (fields : List FieldDesc)
    (dec : Nat → ρ → A → Except ε α) (alloc : A)
    (l₁ l₂ : List (Entry ρ ε)) (j : Nat) (hperm : l₁.Perm l₂)
    (hc : l₁.countP (entry_resolves fields j) = 1) :
    entry_value fields dec alloc l₁ j = entry_value fields dec alloc l₂ j := by
  have hlen : (l₁.filter (entry_resolves fields j)).length = 1 := by
    rw [← List.countP_eq_length_filter]
    exact hc
  rcases List.length_eq_one.mp hlen with ⟨e, he⟩
  have hf2 : l₂.filter (entry_resolves fields j) = [e] := by
    have hp := hperm.filter (entry_resolves fields j)
    rw [he] at hp
    exact List.perm_singleton.mp hp.symm
  rw [entry_value, entry_value, find?_eq_head?_filter, find?_eq_head?_filter,
    he, hf2]

theorem entries_wf_perm {ρ ε α A : Type} (fields : List FieldDesc)
    (dec : Nat → ρ → A → Except ε α) (skip : ρ → Except ε Unit) (alloc : A)
    (l₁ l₂ : List (Entry ρ ε)) (hperm : l₁.Perm l₂)
    (h : entries_wf fields dec skip alloc l₁ = true) :
    entries_wf fields dec skip alloc l₂ = true := by
  rw [entries_wf, List.all_eq_true] at h ⊢
  intro e he
  exact h e (hperm.mem_iff.mpr he)

theorem visit_map_char {ρ ε α A : Type} (fields : List FieldDesc)
    (dec : Nat → ρ → A → Except ε α) (skip : ρ → Except ε Unit) (alloc : A)
    (entries : List (Entry ρ ε))
    (hwf : entries_wf fields dec skip alloc entries = true)
    (honce : ∀ i, i < fields.length →
      entries.countP (entry_resolves fields i) = 1) :
    visit_map fields dec skip ⟨alloc⟩ entries
      = field_unwraps (fun j => entry_value fields dec alloc entries j)
          fields 0 := by
  have honce' : ∀ i, i < fields.length →
      entries.countP (entry_resolves fields i)
        + (if ((fun _ => (none : Option α)) i).isSome then 1 else 0) = 1 := by
    intro i hi
    simpa using honce i hi
  have hloop := loop_char fields dec skip alloc entries
    (fun _ => none) hwf honce'
  rw [visit_map_of_loop_ok fields dec skip ⟨alloc⟩ entries _ hloop]
  rfl

/-! ## Claims -/

/-- C2: if the input map exhausts with no earlier error (the loop returns
its slots) and some accumulator slot is empty, decoding fails with
`missing_field` carrying the wire name of the first empty slot in declared
position order. -/
theorem C2_missing_field_first_empty {ρ ε α A : Type}
    (fields : List FieldDesc) (dec : Nat → ρ → A → Except ε α)
    (skip : ρ → Except ε Unit) (self : __Visitor A)
    (entries : List (Entry ρ ε)) (slots : Nat → Option α) (j : Nat)
    (hloop : visit_map_loop fields dec skip self entries (fun _ => none)
      = .ok slots)
    (hlt : j < fields.length) (hj : slots j = none)
    (hfirst : ∀ j' < j, (slots j').isSome = true) :
    visit_map fields dec skip self entries
      = .error (.missing_field (deserialize_name (fields.get ⟨j, hlt⟩))) := by
  rw [visit_map_of_loop_ok fields dec skip self entries slots hloop]
  have hj0 : slots (0 + j) = none := by
    rw [Nat.zero_add]
    exact hj
  have hfirst0 : ∀ j' < j, (slots (0 + j')).isSome = true := by
    intro j' hj'
    rw [Nat.zero_add]
    exact hfirst j' hj'
  exact field_unwraps_first_missing fields slots 0 j hlt hj0 hfirst0

/-- C2 witness: input `{"x":1}` for the record `{x, y}` fails with
`missing_field "y"`. -/
theorem C2_witness :
    visit_map ex_fields ex_dec ex_skip ⟨()⟩ [.kv "x" 1]
      = .error (.missing_field "y") := by
  exact C2_missing_field_first_empty ex_fields ex_dec ex_skip ⟨()⟩
    [.kv "x" 1] ex_slots_x_filled 1 rfl (by decide) (by decide) (by decide)

/-- C3 counterexample: for a field with binding identifier `x_int` renamed
to wire name `x`, a duplicate `x` key fails with
`duplicate_field "x_int"` — the binding identifier — and not with the wire
name `x` the claim states. -/
theorem C3_counterexample :
    visit_map ex_fields_renamed ex_dec ex_skip ⟨()⟩ [.kv "x" 1, .kv "x" 2]
      = .error (.duplicate_field "x_int")
    ∧ deserialize_name ⟨"x_int", some "x"⟩ = "x"
    ∧ ("x_int" : String) ≠ "x" := by
  refine ⟨?_, rfl, by decide⟩
  rfl

/-- C3 (amended): whenever an incoming key resolves to field `i` and
`slot[i]` is already filled, decoding fails immediately — before the
duplicate's value is decoded and regardless of the remaining input — with
`duplicate_field` carrying field `i`'s *binding identifier* (which equals
the wire name exactly when no rename attribute is in effect). -/
theorem C3_duplicate_field_binding_ident {ρ ε α A : Type}
    (fields : List FieldDesc) (dec : Nat → ρ → A → Except ε α)
    (skip : ρ → Except ε Unit) (self : __Visitor A) (k : String) (v : ρ)
    (rest : List (Entry ρ ε)) (slots : Nat → Option α) (i : Nat)
    (hk : field_match fields k = .mk i) (hdup : (slots i).isSome = true) :
    visit_map_loop fields dec skip self (.kv k v :: rest) slots
      = .error (.duplicate_field (ident_at fields i))
    ∧ ∃ f, fields.get? i = some f ∧ ident_at fields i = f.ident := by
  refine ⟨loop_duplicate fields dec skip self k v rest slots i hk hdup, ?_⟩
  have hlt := field_match_mk_lt fields i k hk
  have hg : fields.get? i = some (fields.get ⟨i, hlt⟩) := List.get?_eq_get hlt
  exact ⟨fields.get ⟨i, hlt⟩, hg, by rw [ident_at, hg]⟩

/-- C3 witness: the duplicate abort happens even under a value decoder that
always fails, showing the duplicate's value is never decoded. -/
theorem C3_witness :
    visit_map_loop ex_fields_renamed ex_dec_err ex_skip ⟨()⟩ [.kv "x" 2]
        ex_slots_x_filled
      = .error (.duplicate_field "x_int") :=
  (C3_duplicate_field_binding_ident ex_fields_renamed ex_dec_err ex_skip
    ⟨()⟩ "x" 2 [] ex_slots_x_filled 0 (by decide) (by decide)).1

/-- C4: a key matching no field's wire name resolves to `__ignore`
(the identifier decoder never fails on it), one value is decoded and
discarded through `next_value::<IgnoredAny>`, and the entry affects neither
the decoded result nor success, at any position in the input. -/
theorem C4_unknown_key_ignored {ρ ε α A : Type} (fields : List FieldDesc)
    (dec : Nat → ρ → A → Except ε α) (skip : ρ → Except ε Unit)
    (self : __Visitor A) (k : String) (v : ρ)
    (hk : ∀ f ∈ fields, deserialize_name f ≠ k)
    (hv : skip v = .ok ()) :
    field_match fields k = .__ignore
    ∧ visit_str ε fields k = .ok .__ignore
    ∧ (∀ (pre post : List (Entry ρ ε)) (slots : Nat → Option α),
        visit_map_loop fields dec skip self (pre ++ .kv k v :: post) slots
          = visit_map_loop fields dec skip self (pre ++ post) slots)
    ∧ (∀ pre post : List (Entry ρ ε),
        visit_map fields dec skip self (pre ++ .kv k v :: post)
          = visit_map fields dec skip self (pre ++ post)) := by
  have hig : field_match fields k = .__ignore :=
    (field_match_ignore_iff fields k).mpr hk
  refine ⟨hig, by rw [visit_str, hig], ?_, ?_⟩
  · exact loop_insert_ignored fields dec skip self k v hig hv
  · intro pre post
    rw [visit_map, visit_map,
      loop_insert_ignored fields dec skip self k v hig hv pre post]

/-- C4 witness: input `{"x":1,"y":2,"z":3}` decodes as `{"x":1,"y":2}`
does, yielding `{x:1, y:2}`. -/
theorem C4_witness :
    field_match ex_fields "z" = .__ignore
    ∧ visit_map ex_fields ex_dec ex_skip ⟨()⟩
        [.kv "x" 1, .kv "y" 2, .kv "z" 3]
        = visit_map ex_fields ex_dec ex_skip ⟨()⟩ [.kv "x" 1, .kv "y" 2]
    ∧ visit_map ex_fields ex_dec ex_skip ⟨()⟩
        [.kv "x" 1, .kv "y" 2, .kv "z" 3] = .ok [1, 2] := by
  have h := C4_unknown_key_ignored ex_fields ex_dec ex_skip
    (⟨()⟩ : __Visitor Unit) "z" (3 : Int) (by decide) rfl
  refine ⟨h.1, ?_, by rfl⟩
  exact h.2.2.2 [.kv "x" 1, .kv "y" 2] []

/-- C5: the first error encountered — input key error, duplicate field,
value decode error, or skip error — aborts the decode immediately: the
result is that one error, unchanged, independent of the entire remaining
input, and a loop error is propagated unchanged by `visit_map` (no record
is constructed). -/
theorem C5_first_error_aborts {ρ ε α A : Type} (fields : List FieldDesc)
    (dec : Nat → ρ → A → Except ε α) (skip : ρ → Except ε Unit)
    (self : __Visitor A) :
    (∀ (e : ε) (rest : List (Entry ρ ε)) (slots : Nat → Option α),
      visit_map_loop fields dec skip self (.keyErr e :: rest) slots
        = .error (.input e))
    ∧ (∀ (k : String) (v : ρ) (i : Nat) (rest : List (Entry ρ ε))
        (slots : Nat → Option α),
        field_match fields k = .mk i → (slots i).isSome = true →
        visit_map_loop fields dec skip self (.kv k v :: rest) slots
          = .error (.duplicate_field (ident_at fields i)))
    ∧ (∀ (k : String) (v : ρ) (i : Nat) (e : ε) (rest : List (Entry ρ ε))
        (slots : Nat → Option α),
        field_match fields k = .mk i → (slots i).isSome = false →
        dec i v self.__alloc = .error e →
        visit_map_loop fields dec skip self (.kv k v :: rest) slots
          = .error (.input e))
    ∧ (∀ (k : String) (v : ρ) (e : ε) (rest : List (Entry ρ ε))
        (slots : Nat → Option α),
        field_match fields k = .__ignore → skip v = .error e →
        visit_map_loop fields dec skip self (.kv k v :: rest) slots
          = .error (.input e))
    ∧ (∀ (entries : List (Entry ρ ε)) (err : DecodeError ε),
        visit_map_loop fields dec skip self entries (fun _ => none)
          = .error err →
        visit_map fields dec skip self entries = .error err) := by
  refine ⟨?_, ?_, ?_, ?_, ?_⟩
  · intro e rest slots
    exact loop_key_err fields dec skip self e rest slots
  · intro k v i rest slots hk hdup
    exact loop_duplicate fields dec skip self k v rest slots i hk hdup
  · intro k v i e rest slots hk hdup hd
    exact loop_dec_error fields dec skip self k v rest slots i e hk hdup hd
  · intro k v e rest slots hk hs
    exact loop_skip_error fields dec skip self k v rest slots e hk hs
  · intro entries err h
    exact visit_map_of_loop_error fields dec skip self entries err h

/-- C5 witness: the skip error raised on the first (unknown-key) entry is
returned unchanged and the later entries are never read. -/
theorem C5_witness :
    visit_map ex_fields ex_dec ex_skip_err ⟨()⟩ [.kv "z" 9, .kv "x" 1]
      = .error (.input "skip failure") := by
  have h := C5_first_error_aborts ex_fields ex_dec ex_skip_err
    (⟨()⟩ : __Visitor Unit)
  exact h.2.2.2.2 _ _
    (h.2.2.2.1 "z" 9 "skip failure" [.kv "x" 1] (fun _ => none)
      (by decide) rfl)

/-- C6: every per-field seed is built from the container's own handle
(`self.__alloc.clone()` of a `Copy` handle is a value copy), the seed's
nested `deserialize_in` receives exactly that handle, and across the whole
accumulation loop every field decode receives the handle passed to the
container's `deserialize_in` — the handle is duplicated, never handed off.
-/
theorem C6_allocator_identity {ρ ε α A : Type} (fields : List FieldDesc)
    (dec : Nat → ρ → A → Except ε α) (skip : ρ → Except ε Unit)
    (alloc : A) :
    (seed_for_field (⟨alloc⟩ : __Visitor A)).alloc = alloc
    ∧ (∀ (i : Nat) (v : ρ),
        seed_deserialize dec i (seed_for_field (⟨alloc⟩ : __Visitor A)) v
          = dec i v alloc)
    ∧ (∀ (entries : List (Entry ρ ε)) (slots : Nat → Option α),
        visit_map_loop fields dec skip ⟨alloc⟩ entries slots
          = visit_map_loop fields (fun i v _ => dec i v alloc) skip ⟨alloc⟩
              entries slots)
    ∧ (∀ entries : List (Entry ρ ε),
        deserialize_in_impl fields dec skip alloc entries
          = visit_map fields (fun i v _ => dec i v alloc) skip ⟨alloc⟩
              entries) := by
  refine ⟨rfl, fun i v => rfl, loop_alloc_const fields dec skip alloc, ?_⟩
  intro entries
  rw [deserialize_in_impl, visit_map, visit_map,
    loop_alloc_const fields dec skip alloc entries (fun _ => none)]

/-- C6 witness: with allocator handle `7`, field 0's seed carries `7` and
its nested decode receives `7`. -/
theorem C6_witness :
    (seed_for_field (⟨(7 : Nat)⟩ : __Visitor Nat)).alloc = 7
    ∧ seed_deserialize ex_dec_nat 0
        (seed_for_field (⟨(7 : Nat)⟩ : __Visitor Nat)) 5
        = ex_dec_nat 0 5 7 := by
  have h := C6_allocator_identity ex_fields ex_dec_nat
    (fun _ => (.ok () : Except String Unit)) 7
  exact ⟨h.1, h.2.1 0 5⟩

/-- C7: `find_allocator_param` scans the generic parameters in declaration
order and returns the identifier of the first one carrying a trait bound
whose path ends in the segment `Allocator`; it returns `none` exactly when
no generic parameter carries such a bound. -/
theorem C7_find_allocator_first (ps : List GenericParam) :
    find_allocator_param ps
      = (List.find? param_has_allocator_bound ps).bind type_param_ident
    ∧ (find_allocator_param ps = none ↔
        ∀ p ∈ ps, param_has_allocator_bound p = false) :=
  ⟨find_allocator_param_eq_find? ps, find_allocator_param_none_iff ps⟩

/-- C7 witness: on `<'a, T: Clone, A: core::alloc::Allocator>` the first
(and only) allocator-bound parameter `A` is selected; without it the scan
returns `none`. -/
theorem C7_witness :
    (find_allocator_param ex_generics
      = (List.find? param_has_allocator_bound ex_generics).bind
          type_param_ident)
    ∧ find_allocator_param ex_generics = some "A"
    ∧ ((find_allocator_param ex_generics_no_alloc = none) ↔
        ∀ p ∈ ex_generics_no_alloc, param_has_allocator_bound p = false) :=
  ⟨(C7_find_allocator_first ex_generics).1, by decide,
    (C7_find_allocator_first ex_generics_no_alloc).2⟩

/-- C8: when no generic parameter carries an allocator bound, the expansion
is the bare `compile_error!` sentinel — a failure sentinel artifact, not a
decoder. -/
theorem C8_missing_allocator_param (input : DeriveInput)
    (h : ∀ p ∈ input.generics, param_has_allocator_bound p = false) :
    expand_derive_deserialize_in input
      = .compileError
          "DeserializeIn requires a type parameter with `Allocator` bound"
    ∧ is_failure_sentinel (expand_derive_deserialize_in input) = true := by
  have hnone : find_allocator_param input.generics = none :=
    (find_allocator_param_none_iff input.generics).mpr h
  have h1 : expand_derive_deserialize_in input
      = .compileError
          "DeserializeIn requires a type parameter with `Allocator` bound" := by
    rw [expand_derive_deserialize_in]
    simp only [hnone]
  exact ⟨h1, by rw [h1]; rfl⟩

/-- C8 witness: a named struct with generics `<'a, T: Clone>` expands to the
missing-allocator sentinel. -/
theorem C8_witness :
    expand_derive_deserialize_in
        ⟨"Point", ex_generics_no_alloc, .struct .struct ex_fields⟩
      = .compileError
          "DeserializeIn requires a type parameter with `Allocator` bound" :=
  (C8_missing_allocator_param
    ⟨"Point", ex_generics_no_alloc, .struct .struct ex_fields⟩
    (by decide)).1

/-- C9 counterexample: an enum with no allocator-bound generic parameter
yields a failure sentinel carrying the *missing-allocator* diagnostic, not
an unsupported-shape one, so the claim as stated fails on this input. -/
theorem C9_counterexample :
    is_unsupported_shape (Data.enum) = true
    ∧ expand_derive_deserialize_in ⟨"E", [], .enum⟩
        = .compileError
            "DeserializeIn requires a type parameter with `Allocator` bound"
    ∧ sentinel_msg (expand_derive_deserialize_in ⟨"E", [], .enum⟩)
        ≠ some "DeserializeIn for enums is not yet implemented"
    ∧ sentinel_msg (expand_derive_deserialize_in ⟨"E", [], .enum⟩)
        ≠ some "Only named structs are supported for DeserializeIn" := by
  refine ⟨rfl, rfl, by decide, by decide⟩

/-- C9 (amended): every enum-shaped or non-named-struct container expands
to a failure sentinel artifact (never a protocol implementation); when an
allocator-bound parameter is present the sentinel carries the corresponding
unsupported-shape diagnostic, otherwise it carries the missing-allocator
diagnostic. -/
theorem C9_unsupported_shape_sentinel (input : DeriveInput)
    (h : is_unsupported_shape input.data = true) :
    is_failure_sentinel (expand_derive_deserialize_in input) = true
    ∧ (∀ a, find_allocator_param input.generics = some a →
        expand_derive_deserialize_in input
          = .implBlock a (.compileError (unsupported_shape_msg input.data)))
    := by
  rcases input with ⟨idn, gens, data⟩
  cases data with
  | enum =>
    cases hfa : find_allocator_param gens with
    | none =>
      refine ⟨?_, ?_⟩
      · rw [expand_derive_deserialize_in]
        simp only [hfa]
        rfl
      · intro a ha
        cases ha
    | some b =>
      refine ⟨?_, ?_⟩
      · rw [expand_derive_deserialize_in]
        simp only [hfa]
        rfl
      · intro a ha
        cases ha
        rw [expand_derive_deserialize_in]
        simp only [hfa]
        rfl
  | struct style fields' =>
    cases style with
    | struct => simp [is_unsupported_shape] at h
    | tuple =>
      cases hfa : find_allocator_param gens with
      | none =>
        refine ⟨?_, ?_⟩
        · rw [expand_derive_deserialize_in]
          simp only [hfa]
          rfl
        · intro a ha
          cases ha
      | some b =>
        refine ⟨?_, ?_⟩
        · rw [expand_derive_deserialize_in]
          simp only [hfa]
          rfl
        · intro a ha
          cases ha
          rw [expand_derive_deserialize_in]
          simp only [hfa]
          rfl
    | newtype =>
      cases hfa : find_allocator_param gens with
      | none =>
        refine ⟨?_, ?_⟩
        · rw [expand_derive_deserialize_in]
          simp only [hfa]
          rfl
        · intro a ha
          cases ha
      | some b =>
        refine ⟨?_, ?_⟩
        · rw [expand_derive_deserialize_in]
          simp only [hfa]
          rfl
        · intro a ha
          cases ha
          rw [expand_derive_deserialize_in]
          simp only [hfa]
          rfl
    | unit =>
      cases hfa : find_allocator_param gens with
      | none =>
        refine ⟨?_, ?_⟩
        · rw [expand_derive_deserialize_in]
          simp only [hfa]
          rfl
        · intro a ha
          cases ha
      | some b =>
        refine ⟨?_, ?_⟩
        · rw [expand_derive_deserialize_in]
          simp only [hfa]
          rfl
        · intro a ha
          cases ha
          rw [expand_derive_deserialize_in]
          simp only [hfa]
          rfl

/-- C9 witness: an enum that does carry an allocator-bound parameter
expands to the enum unsupported-shape sentinel. -/
theorem C9_witness :
    is_failure_sentinel
        (expand_derive_deserialize_in ⟨"E", ex_generics, .enum⟩) = true
    ∧ expand_derive_deserialize_in ⟨"E", ex_generics, .enum⟩
        = .implBlock "A"
            (.compileError "DeserializeIn for enums is not yet implemented")
    := by
  have h := C9_unsupported_shape_sentinel ⟨"E", ex_generics, .enum⟩ rfl
  exact ⟨h.1, h.2 "A" (by decide)⟩

/-- C10: for a record with zero fields, every well-formed input map —
including the empty map and maps of only unrecognized keys — decodes to the
empty record; the result is otherwise an input error, and it is never
`duplicate_field` or `missing_field`. -/
theorem C10_zero_field_record {ρ ε α A : Type}
    (dec : Nat → ρ → A → Except ε α) (skip : ρ → Except ε Unit)
    (alloc : A) :
    (∀ entries : List (Entry ρ ε),
        entries_wf [] dec skip alloc entries = true →
        visit_map [] dec skip ⟨alloc⟩ entries = .ok [])
    ∧ (∀ entries : List (Entry ρ ε),
        (∃ e, visit_map [] dec skip ⟨alloc⟩ entries = .error (.input e))
        ∨ visit_map [] dec skip ⟨alloc⟩ entries = .ok [])
    ∧ (∀ (entries : List (Entry ρ ε)) (name : String),
        visit_map [] dec skip ⟨alloc⟩ entries
          ≠ .error (.duplicate_field name)
        ∧ visit_map [] dec skip ⟨alloc⟩ entries
          ≠ .error (.missing_field name)) := by
  refine ⟨?_, ?_, ?_⟩
  · intro entries hwf
    have hloop := loop_no_fields_wf dec skip ⟨alloc⟩ entries hwf
      (fun _ => none)
    rw [visit_map, hloop]
    rfl
  · intro entries
    rcases loop_no_fields dec skip (⟨alloc⟩ : __Visitor A) entries
        (fun _ => none) with ⟨e, he⟩ | hok
    · exact Or.inl ⟨e, by rw [visit_map, he]⟩
    · exact Or.inr (by rw [visit_map, hok]; rfl)
  · intro entries name
    rcases loop_no_fields dec skip (⟨alloc⟩ : __Visitor A) entries
        (fun _ => none) with ⟨e, he⟩ | hok
    · constructor
      · rw [visit_map, he]
        simp
      · rw [visit_map, he]
        simp
    · constructor
      · rw [visit_map, hok]
        simp [field_unwraps]
      · rw [visit_map, hok]
        simp [field_unwraps]

/-- C10 witness: the empty map and a map of only unknown keys both decode
the zero-field record successfully. -/
theorem C10_witness :
    visit_map ([] : List FieldDesc) ex_dec ex_skip ⟨()⟩
        ([] : List (Entry Int String)) = .ok []
    ∧ visit_map ([] : List FieldDesc) ex_dec ex_skip ⟨()⟩
        [.kv "a" 5, .kv "b" 6] = .ok [] := by
  have h := C10_zero_field_record ex_dec ex_skip ()
  exact ⟨h.1 [] (by decide), h.1 [.kv "a" 5, .kv "b" 6] (by decide)⟩

/-- C1: for a well-formed input map containing each wire field name exactly
once with decodable values, decoding succeeds and yields the same record for
every permutation of the key order. -/
theorem C1_order_independence {ρ ε α A : Type} (fields : List FieldDesc)
    (dec : Nat → ρ → A → Except ε α) (skip : ρ → Except ε Unit) (alloc : A)
    (l₁ l₂ : List (Entry ρ ε))
    (hwf : entries_wf fields dec skip alloc l₁ = true)
    (honce : ∀ i, i < fields.length →
      l₁.countP (entry_resolves fields i) = 1)
    (hperm : l₁.Perm l₂) :
    ∃ r, visit_map fields dec skip ⟨alloc⟩ l₁ = .ok r
      ∧ visit_map fields dec skip ⟨alloc⟩ l₂ = .ok r := by
  have hwf₂ := entries_wf_perm fields dec skip alloc l₁ l₂ hperm hwf
  have honce₂ : ∀ i, i < fields.length →
      l₂.countP (entry_resolves fields i) = 1 := by
    intro i hi
    rw [← hperm.countP_eq]
    exact honce i hi
  have hchar₁ := visit_map_char fields dec skip alloc l₁ hwf honce
  have hchar₂ := visit_map_char fields dec skip alloc l₂ hwf₂ honce₂
  have hvals : (fun j => entry_value fields dec alloc l₁ j)
      = (fun j => entry_value fields dec alloc l₂ j) := by
    funext j
    by_cases hj : j < fields.length
    · exact entry_value_perm fields dec alloc l₁ l₂ j hperm (honce j hj)
    · rw [entry_value_ge fields dec alloc l₁ j (by omega),
        entry_value_ge fields dec alloc l₂ j (by omega)]
  have hsome : ∀ j, j < fields.length →
      ((fun j => entry_value fields dec alloc l₁ j) (0 + j)).isSome = true := by
    intro j hj
    simp only [Nat.zero_add]
    exact entry_value_isSome fields dec skip alloc l₁ j hwf (honce j hj)
  rcases field_unwraps_all_some (ε := ε) fields
      (fun j => entry_value fields dec alloc l₁ j) 0 hsome with ⟨out, hout⟩
  refine ⟨out, ?_, ?_⟩
  · rw [hchar₁]
    exact hout
  · rw [hchar₂, ← hvals]
    exact hout

/-- C1 witness: `{"y":2,"x":1}` and `{"x":1,"y":2}` decode the record
`{x: int, y: int}` to the same result, namely `{x:1, y:2}`. -/
theorem C1_witness :
    (∃ r, visit_map ex_fields ex_dec ex_skip ⟨()⟩ [.kv "y" 2, .kv "x" 1]
        = .ok r
      ∧ visit_map ex_fields ex_dec ex_skip ⟨()⟩ [.kv "x" 1, .kv "y" 2]
        = .ok r)
    ∧ visit_map ex_fields ex_dec ex_skip ⟨()⟩ [.kv "y" 2, .kv "x" 1]
        = .ok [1, 2]
    ∧ visit_map ex_fields ex_dec ex_skip ⟨()⟩ [.kv "x" 1, .kv "y" 2]
        = .ok [1, 2] := by
  refine ⟨C1_order_independence ex_fields ex_dec ex_skip ()
    [.kv "y" 2, .kv "x" 1] [.kv "x" 1, .kv "y" 2]
    (by decide) (by decide) (List.Perm.swap _ _ _), by rfl, by rfl⟩

end DeIn
